import Mathlib

/-!
Verification of lstm-parser: ParserOptions, ParseTree and the evaluation metric

A shallow embedding of `src/parser/lstm-parser.h`.

* `std::vector<T>` is a `List T`; `unsigned` values are natural numbers, reduced
  modulo `2 ^ 32` wherever the C++ arithmetic or a conversion can wrap; `int`
  values are integers.
* `std::unique_ptr<std::vector<std::string>>` is an `Option (List String)`,
  `nullptr` being `none`.
* An indexing operation outside a vector has no defined behaviour in the source;
  the embedding reports it (`none`, or `Outcome.fail Fault.outOfBounds`) instead of
  giving it a meaning.
* `assert` is taken as active: a failed assertion ends the call with
  `Outcome.fail Fault.assertion`.
-/

namespace LstmParser

/-! ## Machine integers -/

/-- Number of values of the 32-bit `unsigned` type. -/
def UNSIGNED_RANGE : Nat := 2 ^ 32

/-- Conversion of an `unsigned` value to `int` (two's complement, 32 bits), as performed by
the assignment `parents[index] = parent_index`. -/
def unsignedToInt (u : Nat) : Int :=
  if u % UNSIGNED_RANGE < 2 ^ 31 then ((u % UNSIGNED_RANGE : Nat) : Int)
  else ((u % UNSIGNED_RANGE : Nat) : Int) - (UNSIGNED_RANGE : Int)

/-- Why a call did not return a value. -/
inductive Fault where
  | assertion
  | outOfBounds
  | outOfFuel
  | illegalAction
deriving DecidableEq, Repr

/-- Result of a call that may abort. -/
inductive Outcome (α : Type) where
  | ok (value : α)
  | fail (fault : Fault)
deriving DecidableEq, Repr

/-! ## ParserOptions -/

/-- The struct `ParserOptions` (lstm-parser.h, lines 24-59). -/
structure ParserOptions where
  use_pos : Bool
  layers : Nat
  input_dim : Nat
  hidden_dim : Nat
  action_dim : Nat
  lstm_input_dim : Nat
  pos_dim : Nat
  rel_dim : Nat
  unk_strategy : Nat
deriving DecidableEq, Repr

/-- The member `ParserOptions::operator==`: a chain of `&&` over the nine field comparisons. -/
def ParserOptions.operator_eq (self other : ParserOptions) : Bool :=
  self.use_pos == other.use_pos && self.layers == other.layers
    && self.input_dim == other.input_dim && self.hidden_dim == other.hidden_dim
    && self.action_dim == other.action_dim
    && self.lstm_input_dim == other.lstm_input_dim && self.pos_dim == other.pos_dim
    && self.rel_dim == other.rel_dim && self.unk_strategy == other.unk_strategy

/-- The member `ParserOptions::operator!=`: the negation of `operator==`. -/
def ParserOptions.operator_ne (self other : ParserOptions) : Bool :=
  !(self.operator_eq other)

/-! ## ParseTree -/

/-- The class `ParseTree` (lstm-parser.h, lines 62-90): the sentence it is built over, one
parent per token, and the arc labels when the tree is labeled. -/
structure ParseTree where
  sentence : List Nat
  parents : List Int
  arc_labels : Option (List String)
deriving DecidableEq, Repr

/-- The constructor `ParseTree(sentence, labeled)`: `parents(sentence.size(), -1)` and, when
labeled, a vector of `sentence.size()` copies of `"ERROR"`. -/
def ParseTree.construct (sentence : List Nat) (labeled : Bool) : ParseTree :=
  { sentence := sentence
    parents := List.replicate sentence.length (-1)
    arc_labels := if labeled then some (List.replicate sentence.length "ERROR") else none }

/-- The member `SetParent(index, parent_index, arc_label)`: writes `parents[index]` and, when
`arc_labels` is not null, `(*arc_labels)[index]`. A write outside either vector gives `none`. -/
def ParseTree.SetParent (t : ParseTree) (index parent_index : Nat) (arc_label : String) :
    Option ParseTree :=
  if index < t.parents.length then
    match t.arc_labels with
    | none =>
      some { t with parents := t.parents.set index (unsignedToInt parent_index) }
    | some labels =>
      if index < labels.length then
        some { t with
          parents := t.parents.set index (unsignedToInt parent_index)
          arc_labels := some (labels.set index arc_label) }
      else none
  else none

/-- The call `SetParent(index, parent_index)` with the third argument omitted: the default
argument `arc_label=""` of line 75 is passed. -/
def ParseTree.SetParent_omitted (t : ParseTree) (index parent_index : Nat) :
    Option ParseTree :=
  t.SetParent index parent_index ""

/-- The accessor `GetParents()`. -/
def ParseTree.GetParents (t : ParseTree) : List Int := t.parents

/-- The accessor `GetArcLabels()`, which dereferences `arc_labels`: `none` on an unlabeled
tree, where the pointer is null. -/
def ParseTree.GetArcLabels (t : ParseTree) : Option (List String) := t.arc_labels

/-- The class invariant of `ParseTree`: both vectors have the length of the sentence. The
members are private, so only the constructor and `SetParent` write them. -/
def ParseTree.WellFormed (t : ParseTree) : Prop :=
  t.parents.length = t.sentence.length ∧
    (match t.arc_labels with
     | none => True
     | some labels => labels.length = t.sentence.length)

/-- One call `SetParent(index, parent_index, arc_label)`. -/
structure SetParentCall where
  index : Nat
  parent_index : Nat
  arc_label : String
deriving DecidableEq, Repr

/-- A sequence of `SetParent` calls applied to a tree, first call first. -/
def ParseTree.applyCalls (t : ParseTree) : List SetParentCall → Option ParseTree
  | [] => some t
  | c :: cs =>
    match t.SetParent c.index c.parent_index c.arc_label with
    | none => none
    | some t1 => ParseTree.applyCalls t1 cs

/-! ## LSTMParser::ComputeCorrect -/

/-- The loop of `ComputeCorrect`, from the state `(i, correct_count)`; `i` and
`correct_count` are `unsigned`, so both increments wrap at `2 ^ 32`. -/
def ComputeCorrect.loop (ref hyp : ParseTree) : Nat → Nat → Nat → Outcome Nat
  | 0, _, _ => Outcome.fail Fault.outOfFuel
  | fuel + 1, i, correct_count =>
    if i < ref.sentence.length then
      match ref.GetParents[i]?, hyp.GetParents[i]? with
      | some r, some h =>
        ComputeCorrect.loop ref hyp fuel ((i + 1) % UNSIGNED_RANGE)
          (if r = h then (correct_count + 1) % UNSIGNED_RANGE else correct_count)
      | _, _ => Outcome.fail Fault.outOfBounds
    else Outcome.ok correct_count

/-- The member `LSTMParser::ComputeCorrect(ref, hyp)` (lines 177-186); `fuel` bounds the number
of loop tests. -/
def ComputeCorrect (fuel : Nat) (ref hyp : ParseTree) : Outcome Nat :=
  if ref.sentence.length = hyp.sentence.length then
    ComputeCorrect.loop ref hyp fuel 0 0
  else Outcome.fail Fault.assertion

/-- The number of positions `i` in `[0, N)` at which the two parent vectors agree. -/
def matchingParents (ref hyp : ParseTree) : Nat :=
  ((List.range ref.sentence.length).filter
    (fun i => decide (ref.GetParents[i]? = hyp.GetParents[i]?))).length


instance ParseTree.decidableWellFormed (t : ParseTree) : Decidable t.WellFormed := by
  unfold ParseTree.WellFormed
  cases t.arc_labels <;> exact inferInstance

/-! ## Transition actions

`IsActionForbidden` and `RecoverParseTree` are declared in the header (lines 138-145) and
defined in a translation unit that is not part of the sources at hand; they are modelled from
sections 4.4, 4.8 and 8 of the specification. -/

/-- Modelled from the spec: the body of the name dispatch is missing; section 4.4 names the
action `SHIFT`. -/
def isShift (a : String) : Bool := a == "SHIFT"

/-- Modelled from the spec: the body of the name dispatch is missing; section 4.4 names the
labeled action `REDUCE-LEFT`, written `REDUCE-LEFT(label)` in section 8. -/
def isReduceLeft (a : String) : Bool := "REDUCE-LEFT".toList.isPrefixOf a.toList

/-- Modelled from the spec: the body of the name dispatch is missing; section 4.4 names the
labeled action `REDUCE-RIGHT`, written `REDUCE-RIGHT(label)` in section 8. -/
def isReduceRight (a : String) : Bool := "REDUCE-RIGHT".toList.isPrefixOf a.toList

/-- Modelled from the spec: the REDUCE-type actions of section 4.4 are the two labeled
reductions. -/
def isReduce (a : String) : Bool := isReduceLeft a || isReduceRight a

/-- Modelled from the spec: the relation label carried by a labeled action, the text between
the parentheses of its name (section 8 writes `REDUCE-LEFT(nsubj)`). -/
def actionLabel (a : String) : String :=
  String.mk (((a.toList.dropWhile (fun c => c != '(')).drop 1).takeWhile (fun c => c != ')'))

/-- Modelled from the spec: the element a REDUCE-type action would make the dependent, read
from `stacki`, the token ids on the stack with the top last. REDUCE-LEFT attaches the element
below the top to the top, REDUCE-RIGHT attaches the top to the element below it, the reading
under which the section 8 scenario makes "saw" the head of "I" (nsubj) and of "it" (dobj). -/
def dependentOf (a : String) (stacki : List Int) : Option Int :=
  if isReduceLeft a then stacki.reverse[1]?
  else if isReduceRight a then stacki.reverse[0]?
  else none

/-- Modelled from the spec: rule (d) of section 4.4 step 2, an action attaching the designated
ROOT symbol as a dependent. The ROOT symbol is the guard the stack starts with (section 4.4;
the section 8 scenario ends with ROOT alone on the stack), hence the bottom entry of `stacki`. -/
def attachesRootAsDependent (a : String) (stacki : List Int) : Bool :=
  match dependentOf a stacki, stacki.head? with
  | some dependent, some root => dependent == root
  | _, _ => false

/-- Modelled from the spec: the body of `LSTMParser::IsActionForbidden` is missing (only its
declaration, lines 138-139, is in the header: a static function of these four arguments).
Section 4.4 step 2: an action is forbidden when any of (a) SHIFT with no remaining buffer
token, (b) a REDUCE-type action unless the stack holds at least 2 elements, or at least 1 when
the buffer is empty, (c) a REDUCE-type action on the last remaining stack element while the
buffer is non-empty, (d) an action that attaches the designated ROOT symbol as a dependent. -/
def IsActionForbidden (a : String) (bsize ssize : Nat) (stacki : List Int) : Bool :=
  (isShift a && decide (bsize < 1))
    || (isReduce a && !(decide (2 ≤ ssize) || (decide (1 ≤ ssize) && decide (bsize = 0))))
    || (isReduce a && decide (ssize = 1) && decide (0 < bsize))
    || attachesRootAsDependent a stacki

/-- Modelled from the spec: the runtime state replayed by Parse Tree Recovery (sections 3 and
4.4): the remaining buffer, front first, and the stack, top first, each entry a token position
with its token id, and the tree built so far. -/
structure RecoverState where
  buffer : List (Nat × Nat)
  stack : List (Nat × Nat)
  tree : ParseTree
deriving DecidableEq, Repr

/-- Modelled from the spec: the token ids currently on the stack, top last, which step 1 of
section 4.4 collects for the legality test. -/
def RecoverState.stacki (s : RecoverState) : List Int :=
  s.stack.reverse.map (fun e => (e.2 : Int))

/-- Modelled from the spec: the initial state of section 4.4 as the section 8 scenario pins it
(section 9 leaves these boundary conditions to that scenario). The stack holds its guard only,
which is the root symbol standing at the front of the sentence; the buffer holds the other
tokens, left to right. A sentence of the root symbol alone is thereby already in the terminal
state of section 4.4, with no arc. -/
def RecoverState.initial (sentence : List Nat) (labeled : Bool) : RecoverState :=
  match sentence.enum with
  | [] => { buffer := [], stack := [], tree := ParseTree.construct sentence labeled }
  | root :: rest =>
    { buffer := rest, stack := [root], tree := ParseTree.construct sentence labeled }

/-- Modelled from the spec: one replayed action, section 4.4 steps 2 and 5 without the vector
math. The action id is looked up in `action_names`; a forbidden action is a fatal structural
illegality (section 7); SHIFT moves the front of the buffer onto the stack; a REDUCE pops the
top two stack elements, records the arc dependent -> head with the action's label through
`SetParent`, and pushes the head back. -/
def RecoverParseTree.step (action_names : List String)
    (s : RecoverState) (action : Nat) : Outcome RecoverState :=
  match action_names[action]? with
  | none => Outcome.fail Fault.outOfBounds
  | some a =>
    if IsActionForbidden a s.buffer.length s.stack.length s.stacki then
      Outcome.fail Fault.illegalAction
    else if isShift a then
      match s.buffer with
      | [] => Outcome.fail Fault.illegalAction
      | b :: rest => Outcome.ok { s with buffer := rest, stack := b :: s.stack }
    else if isReduceLeft a then
      match s.stack with
      | head :: dependent :: rest =>
        match s.tree.SetParent dependent.1 head.1 (actionLabel a) with
        | none => Outcome.fail Fault.outOfBounds
        | some t => Outcome.ok { s with stack := head :: rest, tree := t }
      | _ => Outcome.fail Fault.illegalAction
    else if isReduceRight a then
      match s.stack with
      | dependent :: head :: rest =>
        match s.tree.SetParent dependent.1 head.1 (actionLabel a) with
        | none => Outcome.fail Fault.outOfBounds
        | some t => Outcome.ok { s with stack := head :: rest, tree := t }
      | _ => Outcome.fail Fault.illegalAction
    else Outcome.fail Fault.illegalAction

/-- Modelled from the spec: the replay of an action sequence from a state, first action
first; the first fatal action ends it. -/
def RecoverParseTree.run (action_names : List String) :
    RecoverState → List Nat → Outcome RecoverState
  | s, [] => Outcome.ok s
  | s, action :: rest =>
    match RecoverParseTree.step action_names s action with
    | Outcome.ok s1 => RecoverParseTree.run action_names s1 rest
    | Outcome.fail f => Outcome.fail f

/-- Modelled from the spec: the body of `LSTMParser::RecoverParseTree` is missing (only its
declaration, lines 141-145, is in the header). Section 4.8: replays the action sequence against
the sentence and returns the tree of the recorded arcs. -/
def RecoverParseTree (sentence actions : List Nat)
    (action_names : List String) (labeled : Bool) : Outcome ParseTree :=
  match RecoverParseTree.run action_names (RecoverState.initial sentence labeled) actions with
  | Outcome.ok s => Outcome.ok s.tree
  | Outcome.fail f => Outcome.fail f

/-! ## Supporting lemmas -/

theorem ParseTree.wellFormed_construct (sentence : List Nat) (labeled : Bool) :
    (ParseTree.construct sentence labeled).WellFormed := by
  cases labeled <;> simp [ParseTree.WellFormed, ParseTree.construct]

theorem ParseTree.SetParent_eq_some_iff (t t1 : ParseTree) (i p : Nat) (l : String) :
    t.SetParent i p l = some t1 ↔
      i < t.parents.length ∧ (∀ labels, t.arc_labels = some labels → i < labels.length) ∧
        t1 = { sentence := t.sentence
               parents := t.parents.set i (unsignedToInt p)
               arc_labels := t.arc_labels.map (fun labels => labels.set i l) } := by
  obtain ⟨s, ps, ls⟩ := t
  cases ls with
  | none =>
    by_cases hi : i < ps.length
    · simp [ParseTree.SetParent, hi, eq_comm]
    · simp [ParseTree.SetParent, hi]
  | some labels =>
    by_cases hi : i < ps.length
    · by_cases hj : i < labels.length
      · simp [ParseTree.SetParent, hi, hj, eq_comm]
      · simp [ParseTree.SetParent, hi, hj]
    · simp [ParseTree.SetParent, hi]

theorem ParseTree.SetParent_of_wellFormed (t : ParseTree) (i p : Nat) (l : String)
    (hwf : t.WellFormed) (hi : i < t.sentence.length) :
    t.SetParent i p l = some
      { sentence := t.sentence
        parents := t.parents.set i (unsignedToInt p)
        arc_labels := t.arc_labels.map (fun labels => labels.set i l) } := by
  rw [ParseTree.SetParent_eq_some_iff]
  obtain ⟨s, ps, ls⟩ := t
  obtain ⟨h1, h2⟩ := hwf
  refine ⟨by simpa [h1] using hi, ?_, rfl⟩
  intro labels hl
  simp only at hl
  subst hl
  simp only at h2
  simpa [h2] using hi

theorem ParseTree.SetParent_wellFormed (t t1 : ParseTree) (i p : Nat) (l : String)
    (hwf : t.WellFormed) (h : t.SetParent i p l = some t1) :
    t1.WellFormed ∧ t1.sentence = t.sentence := by
  rw [ParseTree.SetParent_eq_some_iff] at h
  obtain ⟨_, _, rfl⟩ := h
  obtain ⟨s, ps, ls⟩ := t
  obtain ⟨h1, h2⟩ := hwf
  cases ls with
  | none => exact ⟨⟨by simpa using h1, trivial⟩, rfl⟩
  | some labels => exact ⟨⟨by simpa using h1, by simpa using h2⟩, rfl⟩

theorem ParseTree.applyCalls_wellFormed (calls : List SetParentCall) :
    ∀ (t t1 : ParseTree), t.WellFormed → t.applyCalls calls = some t1 →
      t1.WellFormed ∧ t1.sentence = t.sentence := by
  induction calls with
  | nil =>
    intro t t1 hwf h
    simp only [ParseTree.applyCalls, Option.some.injEq] at h
    subst h
    exact ⟨hwf, rfl⟩
  | cons c cs ih =>
    intro t t1 hwf h
    rw [ParseTree.applyCalls] at h
    cases hs : t.SetParent c.index c.parent_index c.arc_label with
    | none => simp [hs] at h
    | some t2 =>
      rw [hs] at h
      obtain ⟨hwf2, hs2⟩ := ParseTree.SetParent_wellFormed t t2 _ _ _ hwf hs
      obtain ⟨hwf1, hs1⟩ := ih t2 t1 hwf2 h
      exact ⟨hwf1, hs1.trans hs2⟩

theorem ComputeCorrect.loop_eq (ref hyp : ParseTree)
    (hr : ref.parents.length = ref.sentence.length)
    (hh : hyp.parents.length = ref.sentence.length)
    (hN : ref.sentence.length < UNSIGNED_RANGE) :
    ∀ (k i c fuel : Nat), i + k = ref.sentence.length → c ≤ i → k < fuel →
      ComputeCorrect.loop ref hyp fuel i c =
        Outcome.ok (c + ((List.range' i k).filter
          (fun j => decide (ref.GetParents[j]? = hyp.GetParents[j]?))).length) := by
  intro k
  induction k with
  | zero =>
    intro i c fuel hik _ hf
    obtain ⟨f, rfl⟩ : ∃ f, fuel = f + 1 := ⟨fuel - 1, by omega⟩
    have hi : ¬ i < ref.sentence.length := by omega
    simp [ComputeCorrect.loop, hi]
  | succ k ih =>
    intro i c fuel hik hc hf
    obtain ⟨f, rfl⟩ : ∃ f, fuel = f + 1 := ⟨fuel - 1, by omega⟩
    have hi : i < ref.sentence.length := by omega
    have hri : i < ref.parents.length := by omega
    have hhi : i < hyp.parents.length := by omega
    have hmod : (i + 1) % UNSIGNED_RANGE = i + 1 := Nat.mod_eq_of_lt (by omega)
    have hcmod : (c + 1) % UNSIGNED_RANGE = c + 1 := Nat.mod_eq_of_lt (by omega)
    have e1 : ref.GetParents[i]? = some (ref.parents[i]) := by
      simp [ParseTree.GetParents, List.getElem?_eq_getElem hri]
    have e2 : hyp.GetParents[i]? = some (hyp.parents[i]) := by
      simp [ParseTree.GetParents, List.getElem?_eq_getElem hhi]
    rw [ComputeCorrect.loop, if_pos hi, e1, e2]
    simp only [hmod, hcmod]
    rw [ih (i + 1) _ f (by omega) (by split <;> omega) (by omega)]
    rw [List.range'_succ, List.filter_cons]
    simp only [e1, e2, Option.some.injEq]
    by_cases hrh : ref.parents[i] = hyp.parents[i]
    · simp [hrh]; omega
    · simp [hrh]

theorem ComputeCorrect_eq_matchingParents (ref hyp : ParseTree) (fuel : Nat)
    (hr : ref.WellFormed) (hh : hyp.WellFormed)
    (hlen : ref.sentence.length = hyp.sentence.length)
    (hN : ref.sentence.length < UNSIGNED_RANGE) (hfuel : ref.sentence.length < fuel) :
    ComputeCorrect fuel ref hyp = Outcome.ok (matchingParents ref hyp) := by
  rw [ComputeCorrect, if_pos hlen,
    ComputeCorrect.loop_eq ref hyp hr.1 (hh.1.trans hlen.symm) hN ref.sentence.length 0 0 fuel
      (by omega) le_rfl hfuel]
  simp [matchingParents, List.range_eq_range']

theorem ComputeCorrect.loop_congr (ref hyp ref1 hyp1 : ParseTree)
    (hs : ref.sentence.length = ref1.sentence.length)
    (hp : ref.GetParents = ref1.GetParents) (hq : hyp.GetParents = hyp1.GetParents) :
    ∀ (fuel i c : Nat),
      ComputeCorrect.loop ref hyp fuel i c = ComputeCorrect.loop ref1 hyp1 fuel i c := by
  intro fuel
  induction fuel with
  | zero => intro i c; simp [ComputeCorrect.loop]
  | succ f ih =>
    intro i c
    rw [ComputeCorrect.loop, ComputeCorrect.loop, hs, hp, hq]
    by_cases hi : i < ref1.sentence.length
    · simp only [if_pos hi]
      cases ref1.GetParents[i]? <;> cases hyp1.GetParents[i]? <;> simp [ih]
    · simp only [if_neg hi]


/-! ## Claims -/

/-- C1: for trees `ref` and `hyp` over sentences of the same length `N` (a length the `unsigned`
loop index can hold), `ComputeCorrect(ref, hyp)` returns exactly the number of indices `i` in
`[0, N)` with `ref.GetParents()[i] == hyp.GetParents()[i]`. -/
theorem ComputeCorrect_counts_matching_parents (ref hyp : ParseTree) (fuel : Nat)
    (hr : ref.WellFormed) (hh : hyp.WellFormed)
    (hlen : ref.sentence.length = hyp.sentence.length)
    (hN : ref.sentence.length < UNSIGNED_RANGE) (hfuel : ref.sentence.length < fuel) :
    ComputeCorrect fuel ref hyp =
      Outcome.ok ((List.range ref.sentence.length).filter
        (fun i => decide (ref.GetParents[i]? = hyp.GetParents[i]?))).length :=
  ComputeCorrect_eq_matchingParents ref hyp fuel hr hh hlen hN hfuel

/-- Witness for C1: a labeled reference and an unlabeled hypothesis over a sentence of three
tokens, agreeing on two parents. -/
theorem ComputeCorrect_counts_matching_parents_witness :
    ComputeCorrect 4 ⟨[5, 6, 7], [-1, 2, 0], some ["ERROR", "a", "b"]⟩ ⟨[5, 6, 7], [-1, 2, 1], none⟩
      = Outcome.ok 2 :=
  ComputeCorrect_counts_matching_parents
    ⟨[5, 6, 7], [-1, 2, 0], some ["ERROR", "a", "b"]⟩ ⟨[5, 6, 7], [-1, 2, 1], none⟩ 4
    (by decide) (by decide) (by decide) (by decide) (by decide)

/-- C2: for every tree `t` obtained from the constructor over a sentence of length `N` by any
sequence of in-range `SetParent` calls, `ComputeCorrect(t, t)` equals `N`. -/
theorem ComputeCorrect_self (sentence : List Nat) (labeled : Bool)
    (calls : List SetParentCall) (t : ParseTree) (fuel : Nat)
    (ht : (ParseTree.construct sentence labeled).applyCalls calls = some t)
    (hN : sentence.length < UNSIGNED_RANGE) (hfuel : sentence.length < fuel) :
    t.sentence.length = sentence.length ∧
      ComputeCorrect fuel t t = Outcome.ok sentence.length := by
  obtain ⟨hwf, hs⟩ := ParseTree.applyCalls_wellFormed calls _ t
    (ParseTree.wellFormed_construct sentence labeled) ht
  have hs1 : t.sentence.length = sentence.length := by
    rw [hs]; rfl
  refine ⟨hs1, ?_⟩
  rw [ComputeCorrect_eq_matchingParents t t fuel hwf hwf rfl (by omega) (by omega)]
  simp [matchingParents, hs1]

/-- Witness for C2: a labeled tree over four tokens after three `SetParent` calls. -/
theorem ComputeCorrect_self_witness :
    (ParseTree.construct [0, 1, 2, 3] true).applyCalls
        [⟨1, 2, "nsubj"⟩, ⟨3, 2, "dobj"⟩, ⟨2, 0, "root"⟩]
        = some ⟨[0, 1, 2, 3], [-1, 2, 0, 2], some ["ERROR", "nsubj", "root", "dobj"]⟩ ∧
      ComputeCorrect 5 ⟨[0, 1, 2, 3], [-1, 2, 0, 2], some ["ERROR", "nsubj", "root", "dobj"]⟩
        ⟨[0, 1, 2, 3], [-1, 2, 0, 2], some ["ERROR", "nsubj", "root", "dobj"]⟩ = Outcome.ok 4 :=
  ⟨by decide,
    (ComputeCorrect_self [0, 1, 2, 3] true [⟨1, 2, "nsubj"⟩, ⟨3, 2, "dobj"⟩, ⟨2, 0, "root"⟩]
      ⟨[0, 1, 2, 3], [-1, 2, 0, 2], some ["ERROR", "nsubj", "root", "dobj"]⟩ 5
      (by decide) (by decide) (by decide)).2⟩

/-- C3: `ComputeCorrect(ref, hyp)` fails if and only if the two sentences have different
lengths, and then by its assertion; when the lengths are equal it returns a count. -/
theorem ComputeCorrect_fails_iff_length_mismatch (ref hyp : ParseTree) (fuel : Nat)
    (hr : ref.WellFormed) (hh : hyp.WellFormed)
    (hN : ref.sentence.length < UNSIGNED_RANGE) (hfuel : ref.sentence.length < fuel) :
    ((∀ c, ComputeCorrect fuel ref hyp ≠ Outcome.ok c) ↔
        ref.sentence.length ≠ hyp.sentence.length) ∧
      (ComputeCorrect fuel ref hyp = Outcome.fail Fault.assertion ↔
        ref.sentence.length ≠ hyp.sentence.length) ∧
      (ref.sentence.length = hyp.sentence.length →
        ∃ c, ComputeCorrect fuel ref hyp = Outcome.ok c) := by
  by_cases hlen : ref.sentence.length = hyp.sentence.length
  · have h := ComputeCorrect_eq_matchingParents ref hyp fuel hr hh hlen hN hfuel
    refine ⟨⟨fun hc => absurd h (hc _), fun hne => absurd hlen hne⟩,
      ⟨fun hf => ?_, fun hne => absurd hlen hne⟩, fun _ => ⟨_, h⟩⟩
    rw [h] at hf
    cases hf
  · have h : ComputeCorrect fuel ref hyp = Outcome.fail Fault.assertion := by
      rw [ComputeCorrect, if_neg hlen]
    refine ⟨⟨fun _ => hlen, fun _ c hc => ?_⟩, ⟨fun _ => hlen, fun _ => h⟩,
      fun he => absurd he hlen⟩
    rw [h] at hc
    cases hc

/-- Witness for C3: sentences of lengths 3 and 2, for which the assertion fails. -/
theorem ComputeCorrect_fails_iff_length_mismatch_witness :
    ComputeCorrect 4 (ParseTree.construct [0, 1, 2] true) (ParseTree.construct [0, 1] true)
      = Outcome.fail Fault.assertion :=
  (ComputeCorrect_fails_iff_length_mismatch (ParseTree.construct [0, 1, 2] true)
    (ParseTree.construct [0, 1] true) 4 (by decide) (by decide) (by decide)
    (by decide)).2.1.mpr (by decide)

/-- C4: `ComputeCorrect` does not depend on arc labels: trees over sentences of the same
lengths and with the same parents sequences give the same outcome, whatever their arc labels
and whether or not they are labeled. -/
theorem ComputeCorrect_ignores_arc_labels (ref ref1 hyp hyp1 : ParseTree) (fuel : Nat)
    (hrs : ref.sentence.length = ref1.sentence.length)
    (hhs : hyp.sentence.length = hyp1.sentence.length)
    (hp : ref.GetParents = ref1.GetParents) (hq : hyp.GetParents = hyp1.GetParents) :
    ComputeCorrect fuel ref hyp = ComputeCorrect fuel ref1 hyp1 := by
  rw [ComputeCorrect, ComputeCorrect, hrs, hhs,
    ComputeCorrect.loop_congr ref hyp ref1 hyp1 hrs hp hq]

/-- Witness for C4: the reference changes its labels and the hypothesis loses them; the count
stays 2. -/
theorem ComputeCorrect_ignores_arc_labels_witness :
    ComputeCorrect 4 ⟨[5, 6, 7], [-1, 2, 0], some ["ERROR", "a", "b"]⟩
        ⟨[5, 6, 7], [-1, 2, 1], some ["x", "y", "z"]⟩
      = ComputeCorrect 4 ⟨[5, 6, 7], [-1, 2, 0], some ["c", "d", "e"]⟩ ⟨[5, 6, 7], [-1, 2, 1], none⟩ ∧
    ComputeCorrect 4 ⟨[5, 6, 7], [-1, 2, 0], some ["c", "d", "e"]⟩ ⟨[5, 6, 7], [-1, 2, 1], none⟩
      = Outcome.ok 2 :=
  ⟨ComputeCorrect_ignores_arc_labels ⟨[5, 6, 7], [-1, 2, 0], some ["ERROR", "a", "b"]⟩
      ⟨[5, 6, 7], [-1, 2, 0], some ["c", "d", "e"]⟩ ⟨[5, 6, 7], [-1, 2, 1], some ["x", "y", "z"]⟩
      ⟨[5, 6, 7], [-1, 2, 1], none⟩ 4 (by decide) (by decide) (by decide) (by decide),
    by decide⟩

/-- C5: `a == b` on `ParserOptions` is true if and only if all nine fields agree: `use_pos`,
`layers`, `input_dim`, `hidden_dim`, `action_dim`, `lstm_input_dim`, `pos_dim`, `rel_dim`
and `unk_strategy`. -/
theorem ParserOptions_eq_iff_all_fields_agree (a b : ParserOptions) :
    a.operator_eq b = true ↔
      (a.use_pos = b.use_pos ∧ a.layers = b.layers ∧ a.input_dim = b.input_dim ∧
        a.hidden_dim = b.hidden_dim ∧ a.action_dim = b.action_dim ∧
        a.lstm_input_dim = b.lstm_input_dim ∧ a.pos_dim = b.pos_dim ∧
        a.rel_dim = b.rel_dim ∧ a.unk_strategy = b.unk_strategy) := by
  simp only [ParserOptions.operator_eq, Bool.and_eq_true, beq_iff_eq, and_assoc]


/-- C6: for a sentence of length `N`, a freshly constructed tree has a parents sequence of
length exactly `N` whose every entry is the sentinel `-1` and, when constructed labeled, an
arc-label sequence of length exactly `N` whose every entry is the string `"ERROR"`. -/
theorem ParseTree_construct_defaults (sentence : List Nat) (labeled : Bool) :
    (ParseTree.construct sentence labeled).GetParents.length = sentence.length ∧
      (∀ i, i < sentence.length →
        (ParseTree.construct sentence labeled).GetParents[i]? = some (-1)) ∧
      ∃ labels, (ParseTree.construct sentence true).GetArcLabels = some labels ∧
        labels.length = sentence.length ∧
        ∀ i, i < sentence.length → labels[i]? = some "ERROR" := by
  refine ⟨by simp [ParseTree.construct, ParseTree.GetParents], ?_,
    List.replicate sentence.length "ERROR", by simp [ParseTree.construct, ParseTree.GetArcLabels],
    by simp, ?_⟩
  · intro i hi
    simp [ParseTree.construct, ParseTree.GetParents, List.getElem?_replicate, hi]
  · intro i hi
    simp [List.getElem?_replicate, hi]

/-- C7: a later `SetParent` on the same index overwrites the earlier one: on a tree `t` and an
in-range index `i`, `SetParent(i, p1, l1)` followed by `SetParent(i, p2, l2)` gives the same
parents and arc labels as `SetParent(i, p2, l2)` alone. -/
theorem SetParent_overwrites (t : ParseTree) (i p1 p2 : Nat) (l1 l2 : String)
    (hwf : t.WellFormed) (hi : i < t.sentence.length) :
    ∃ t1 t2 t3, t.SetParent i p1 l1 = some t1 ∧ t1.SetParent i p2 l2 = some t2 ∧
      t.SetParent i p2 l2 = some t3 ∧
      t2.GetParents = t3.GetParents ∧ t2.GetArcLabels = t3.GetArcLabels := by
  have h1 := ParseTree.SetParent_of_wellFormed t i p1 l1 hwf hi
  obtain ⟨hwf1, hs1⟩ := ParseTree.SetParent_wellFormed t _ i p1 l1 hwf h1
  have h2 := ParseTree.SetParent_of_wellFormed _ i p2 l2 hwf1 (by rw [hs1]; exact hi)
  have h3 := ParseTree.SetParent_of_wellFormed t i p2 l2 hwf hi
  refine ⟨_, _, _, h1, h2, h3, ?_, ?_⟩
  · simp [ParseTree.GetParents, List.set_set]
  · cases hl : t.arc_labels <;> simp [ParseTree.GetArcLabels, hl, List.set_set]

/-- Witness for C7: index 1 of a labeled tree over three tokens, written twice. -/
theorem SetParent_overwrites_witness :
    ∃ t1 t2 t3, (ParseTree.construct [0, 1, 2] true).SetParent 1 0 "a" = some t1 ∧
      t1.SetParent 1 2 "b" = some t2 ∧
      (ParseTree.construct [0, 1, 2] true).SetParent 1 2 "b" = some t3 ∧
      t2.GetParents = t3.GetParents ∧ t2.GetArcLabels = t3.GetArcLabels :=
  SetParent_overwrites (ParseTree.construct [0, 1, 2] true) 1 0 2 "a" "b"
    (by decide) (by decide)

theorem isShift_not_reduce (a : String) (h : isShift a = true) :
    isReduceLeft a = false ∧ isReduceRight a = false := by
  have ha : a = "SHIFT" := by simpa [isShift] using h
  subst ha
  exact ⟨by decide, by decide⟩

/-- C8: `IsActionForbidden(a, bsize, ssize, stacki)` is true for the SHIFT action whenever no
buffer token remains (and only then), and true for every REDUCE-type action whenever the stack
holds fewer than 2 elements and the buffer is non-empty; the verdict is determined by
`(a, bsize, ssize, stacki)` alone: two parser states with the same buffer size and the same
token ids on the stack get the same verdict, whatever their trees, buffered tokens and token
positions. -/
theorem IsActionForbidden_shift_and_reduce (a : String) (bsize ssize : Nat)
    (stacki : List Int) :
    (isShift a = true → (IsActionForbidden a bsize ssize stacki = true ↔ bsize = 0)) ∧
      (isReduce a = true → ssize < 2 → 0 < bsize →
        IsActionForbidden a bsize ssize stacki = true) ∧
      (∀ s1 s2 : RecoverState, s1.buffer.length = s2.buffer.length → s1.stacki = s2.stacki →
        IsActionForbidden a s1.buffer.length s1.stack.length s1.stacki =
          IsActionForbidden a s2.buffer.length s2.stack.length s2.stacki) := by
  refine ⟨?_, ?_, ?_⟩
  · intro hs
    obtain ⟨hl, hr⟩ := isShift_not_reduce a hs
    simp [IsActionForbidden, attachesRootAsDependent, dependentOf, isReduce, hs, hl, hr]
  · intro hr hss hb
    have h2 : ¬ 2 ≤ ssize := by omega
    have h0 : ¬ bsize = 0 := by omega
    simp [IsActionForbidden, hr, h2, h0]
  · intro s1 s2 hb hst
    have hlen : s1.stack.length = s2.stack.length := by
      have := congrArg List.length hst
      simpa [RecoverState.stacki] using this
    rw [hb, hlen, hst]

/-- Instances for C8: SHIFT on an empty buffer, and both reductions on a stack of one element
with one token left in the buffer, are forbidden; SHIFT with a token left is not. -/
theorem IsActionForbidden_shift_and_reduce_witness :
    IsActionForbidden "SHIFT" 0 2 [0, 2] = true ∧
      IsActionForbidden "REDUCE-LEFT(nsubj)" 1 1 [0] = true ∧
      IsActionForbidden "REDUCE-RIGHT(root)" 1 1 [0] = true ∧
      IsActionForbidden "SHIFT" 1 2 [0, 2] ≠ true :=
  ⟨((IsActionForbidden_shift_and_reduce "SHIFT" 0 2 [0, 2]).1 (by decide)).mpr (by decide),
    (IsActionForbidden_shift_and_reduce "REDUCE-LEFT(nsubj)" 1 1 [0]).2.1
      (by decide) (by decide) (by decide),
    (IsActionForbidden_shift_and_reduce "REDUCE-RIGHT(root)" 1 1 [0]).2.1
      (by decide) (by decide) (by decide),
    fun h => absurd (((IsActionForbidden_shift_and_reduce "SHIFT" 1 2 [0, 2]).1
      (by decide)).mp h) (by decide)⟩

theorem unsignedToInt_of_lt (p : Nat) (h : p < 2 ^ 31) : unsignedToInt p = (p : Int) := by
  have hp1 : p % UNSIGNED_RANGE = p := Nat.mod_eq_of_lt (by unfold UNSIGNED_RANGE; omega)
  rw [unsignedToInt, hp1, if_pos h]

theorem unsignedToInt_of_ge (p : Nat) (h1 : 2 ^ 31 ≤ p) (h2 : p < 2 ^ 32) :
    unsignedToInt p = (p : Int) - 2 ^ 32 := by
  have hp1 : p % UNSIGNED_RANGE = p := Nat.mod_eq_of_lt (by unfold UNSIGNED_RANGE; omega)
  rw [unsignedToInt, hp1, if_neg (by omega)]
  simp [UNSIGNED_RANGE]

theorem ParseTree.applyCalls_untargeted (calls : List SetParentCall) :
    ∀ (t t1 : ParseTree), t.applyCalls calls = some t1 →
      ∀ j, (∀ c ∈ calls, c.index ≠ j) →
        t1.parents[j]? = t.parents[j]? ∧
          t1.arc_labels.map (fun labels => labels[j]?) =
            t.arc_labels.map (fun labels => labels[j]?) := by
  induction calls with
  | nil =>
    intro t t1 h j _
    simp only [ParseTree.applyCalls, Option.some.injEq] at h
    subst h
    exact ⟨rfl, rfl⟩
  | cons c cs ih =>
    intro t t1 h j hj
    rw [ParseTree.applyCalls] at h
    cases hs : t.SetParent c.index c.parent_index c.arc_label with
    | none => simp [hs] at h
    | some t2 =>
      rw [hs] at h
      obtain ⟨e1, e2⟩ := ih t2 t1 h j (fun d hd => hj d (List.mem_cons_of_mem c hd))
      have hc : c.index ≠ j := hj c (List.mem_cons_self c cs)
      rw [ParseTree.SetParent_eq_some_iff] at hs
      obtain ⟨_, _, rfl⟩ := hs
      refine ⟨e1.trans (by simp [List.getElem?_set_ne hc]), e2.trans ?_⟩
      cases t.arc_labels <;> simp [List.getElem?_set_ne hc]

/-- Counterexample for C10: `SetParent(0, 4294967295, "x")` leaves the parent at index 0 equal
to `-1`, not to `4294967295`. -/
theorem SetParent_parent_not_stored_verbatim :
    ∃ t1, (ParseTree.construct [7] true).SetParent 0 4294967295 "x" = some t1 ∧
      t1.GetParents[0]? = some (-1) ∧
      t1.GetParents[0]? ≠ some ((4294967295 : Nat) : Int) :=
  ⟨⟨[7], [-1], some ["x"]⟩, by decide, by decide, by decide⟩

/-- C10, amended: on a tree `t` and an in-range index `i`, after `SetParent(i, p, l)` the parent
at `i` is `p` read as a signed 32-bit `int` (`p` itself when `p < 2^31`, `p - 2^32` for the
larger `unsigned` values) and, if the tree is labeled, the label at `i` is `l`, while at every
other index `j` the parent and the arc label are what they were before the call; hence after
any sequence of `SetParent` calls on a fresh tree, every index that was never targeted still
has parent `-1` and, if labeled, label `"ERROR"`. -/
theorem SetParent_frame (t : ParseTree) (i p : Nat) (l : String)
    (hwf : t.WellFormed) (hi : i < t.sentence.length) :
    (∃ t1, t.SetParent i p l = some t1 ∧
        t1.GetParents[i]? = some (unsignedToInt p) ∧
        (p < 2 ^ 31 → t1.GetParents[i]? = some (p : Int)) ∧
        (2 ^ 31 ≤ p → p < 2 ^ 32 → t1.GetParents[i]? = some ((p : Int) - 2 ^ 32)) ∧
        (∀ j, j ≠ i → t1.GetParents[j]? = t.GetParents[j]?) ∧
        (∀ labels, t.GetArcLabels = some labels →
          ∃ labels1, t1.GetArcLabels = some labels1 ∧ labels1[i]? = some l ∧
            ∀ j, j ≠ i → labels1[j]? = labels[j]?) ∧
        (t.GetArcLabels = none → t1.GetArcLabels = none)) ∧
      (∀ (sentence : List Nat) (labeled : Bool) (calls : List SetParentCall) (t0 : ParseTree),
        (ParseTree.construct sentence labeled).applyCalls calls = some t0 →
        ∀ j, j < sentence.length → (∀ c ∈ calls, c.index ≠ j) →
          t0.GetParents[j]? = some (-1) ∧
            (labeled = true →
              ∃ labels, t0.GetArcLabels = some labels ∧ labels[j]? = some "ERROR")) := by
  constructor
  · have h1 := ParseTree.SetParent_of_wellFormed t i p l hwf hi
    have hip : i < t.parents.length := by rw [hwf.1]; exact hi
    refine ⟨_, h1, ?_, ?_, ?_, ?_, ?_, ?_⟩
    · simp [ParseTree.GetParents, hip]
    · intro hp
      simp [ParseTree.GetParents, hip, unsignedToInt_of_lt p hp]
    · intro hp hp2
      simp [ParseTree.GetParents, hip, unsignedToInt_of_ge p hp hp2]
    · intro j hj
      simp [ParseTree.GetParents, List.getElem?_set_ne (Ne.symm hj)]
    · intro labels hl
      have hl1 : t.arc_labels = some labels := hl
      have hil : i < labels.length := by
        have := hwf.2
        rw [hl1] at this
        simp only at this
        omega
      refine ⟨labels.set i l, by simp [ParseTree.GetArcLabels, hl1], by simp [hil], ?_⟩
      intro j hj
      simp [List.getElem?_set_ne (Ne.symm hj)]
    · intro hl
      have hl1 : t.arc_labels = none := hl
      simp [ParseTree.GetArcLabels, hl1]
  · intro sentence labeled calls t0 h0 j hj hc
    obtain ⟨e1, e2⟩ := ParseTree.applyCalls_untargeted calls _ t0 h0 j hc
    refine ⟨?_, ?_⟩
    · rw [ParseTree.GetParents, e1]
      simp [ParseTree.construct, List.getElem?_replicate, hj]
    · intro hlab
      subst hlab
      cases h : t0.arc_labels with
      | none => simp [h, ParseTree.construct] at e2
      | some labels =>
        refine ⟨labels, h, ?_⟩
        simpa [h, ParseTree.construct, List.getElem?_replicate, hj] using e2

/-- Witness for C10: a labeled tree over three tokens whose index 1 was set before; index 2 is
written now, index 0 was never targeted. -/
theorem SetParent_frame_witness :
    ∃ t1, (⟨[0, 1, 2], [-1, 2, -1], some ["ERROR", "nsubj", "ERROR"]⟩ : ParseTree).SetParent
        2 0 "root" = some t1 ∧
      t1.GetParents = [-1, 2, 0] ∧ t1.GetArcLabels = some ["ERROR", "nsubj", "root"] :=
  match (SetParent_frame ⟨[0, 1, 2], [-1, 2, -1], some ["ERROR", "nsubj", "ERROR"]⟩ 2 0 "root"
    (by decide) (by decide)).1 with
  | ⟨t1, h, _⟩ => ⟨t1, h, by
      have e : t1 = ⟨[0, 1, 2], [-1, 2, 0], some ["ERROR", "nsubj", "root"]⟩ :=
        Option.some.inj (h.symm.trans (by decide))
      rw [e]; exact ⟨rfl, rfl⟩⟩

/-- C11: `a != b` on `ParserOptions` is true if and only if at least one of the nine fields
differs, and `(a != b) == !(a == b)`. -/
theorem ParserOptions_ne_iff_some_field_differs (a b : ParserOptions) :
    (a.operator_ne b = true ↔
      (a.use_pos ≠ b.use_pos ∨ a.layers ≠ b.layers ∨ a.input_dim ≠ b.input_dim ∨
        a.hidden_dim ≠ b.hidden_dim ∨ a.action_dim ≠ b.action_dim ∨
        a.lstm_input_dim ≠ b.lstm_input_dim ∨ a.pos_dim ≠ b.pos_dim ∨
        a.rel_dim ≠ b.rel_dim ∨ a.unk_strategy ≠ b.unk_strategy)) ∧
      a.operator_ne b = !(a.operator_eq b) := by
  refine ⟨?_, rfl⟩
  rw [ParserOptions.operator_ne, Bool.not_eq_true', ← Bool.not_eq_true]
  simp only [ParserOptions.operator_eq, Bool.and_eq_true, beq_iff_eq]
  tauto

theorem ParseTree.applyCalls_defined (calls : List SetParentCall) :
    ∀ (t : ParseTree), t.WellFormed → (∀ c ∈ calls, c.index < t.sentence.length) →
      ∃ t1, t.applyCalls calls = some t1 := by
  induction calls with
  | nil => intro t _ _; exact ⟨t, rfl⟩
  | cons c cs ih =>
    intro t hwf hc
    have h1 := ParseTree.SetParent_of_wellFormed t c.index c.parent_index c.arc_label hwf
      (hc c (List.mem_cons_self c cs))
    obtain ⟨hwf1, hs1⟩ := ParseTree.SetParent_wellFormed t _ _ _ _ hwf h1
    obtain ⟨t2, h2⟩ := ih _ hwf1 (fun d hd => by
      rw [hs1]; exact hc d (List.mem_cons_of_mem c hd))
    exact ⟨t2, by rw [ParseTree.applyCalls, h1]; exact h2⟩

theorem ParseTree.applyCalls_labeled (calls : List SetParentCall) :
    ∀ (t t1 : ParseTree), t.applyCalls calls = some t1 →
      t1.arc_labels.isSome = t.arc_labels.isSome := by
  induction calls with
  | nil =>
    intro t t1 h
    simp only [ParseTree.applyCalls, Option.some.injEq] at h
    subst h
    rfl
  | cons c cs ih =>
    intro t t1 h
    rw [ParseTree.applyCalls] at h
    cases hs : t.SetParent c.index c.parent_index c.arc_label with
    | none => simp [hs] at h
    | some t2 =>
      rw [hs] at h
      rw [ih t2 t1 h]
      rw [ParseTree.SetParent_eq_some_iff] at hs
      obtain ⟨_, _, rfl⟩ := hs
      simp

theorem ComputeCorrect.loop_ne_outOfBounds (ref hyp : ParseTree)
    (hr : ref.parents.length = ref.sentence.length)
    (hh : hyp.parents.length = ref.sentence.length) :
    ∀ (fuel i c : Nat),
      ComputeCorrect.loop ref hyp fuel i c ≠ Outcome.fail Fault.outOfBounds := by
  intro fuel
  induction fuel with
  | zero => intro i c; simp [ComputeCorrect.loop]
  | succ f ih =>
    intro i c
    rw [ComputeCorrect.loop]
    by_cases hi : i < ref.sentence.length
    · have e1 : ref.GetParents[i]? = some (ref.parents[i]) := by
        simp [ParseTree.GetParents, List.getElem?_eq_getElem (show i < ref.parents.length by omega)]
      have e2 : hyp.GetParents[i]? = some (hyp.parents[i]) := by
        simp [ParseTree.GetParents, List.getElem?_eq_getElem (show i < hyp.parents.length by omega)]
      rw [if_pos hi, e1, e2]
      exact ih _ _
    · rw [if_neg hi]
      simp

/-- C12: every tree reached from the constructor over a sentence of length `N` by a sequence
of `SetParent` calls with index `< N` has a parents sequence of length exactly `N` and, if
labeled, an arc-label sequence of length exactly `N`; hence, for two such trees over sentences
of equal length, every index read by the loop of `ComputeCorrect` is in bounds for both. -/
theorem ParseTree_size_invariant (sentence : List Nat) (labeled : Bool)
    (calls : List SetParentCall) (hcalls : ∀ c ∈ calls, c.index < sentence.length) :
    ∃ t, (ParseTree.construct sentence labeled).applyCalls calls = some t ∧
      t.sentence = sentence ∧
      t.GetParents.length = sentence.length ∧
      (labeled = true →
        ∃ labels, t.GetArcLabels = some labels ∧ labels.length = sentence.length) ∧
      (∀ (sentence1 : List Nat) (labeled1 : Bool) (calls1 : List SetParentCall)
          (hyp : ParseTree),
        (ParseTree.construct sentence1 labeled1).applyCalls calls1 = some hyp →
        t.sentence.length = hyp.sentence.length →
        (∀ i, i < t.sentence.length →
          (∃ r, t.GetParents[i]? = some r) ∧ (∃ h, hyp.GetParents[i]? = some h)) ∧
        (∀ fuel, ComputeCorrect fuel t hyp ≠ Outcome.fail Fault.outOfBounds)) := by
  have hwf0 := ParseTree.wellFormed_construct sentence labeled
  obtain ⟨t, ht⟩ := ParseTree.applyCalls_defined calls _ hwf0 hcalls
  obtain ⟨hwf, hs⟩ := ParseTree.applyCalls_wellFormed calls _ t hwf0 ht
  have hs1 : t.sentence = sentence := hs
  refine ⟨t, ht, hs1, by rw [ParseTree.GetParents, hwf.1, hs1], ?_, ?_⟩
  · intro hlab
    subst hlab
    have hsome := ParseTree.applyCalls_labeled calls _ t ht
    cases hlt : t.arc_labels with
    | none => simp [hlt, ParseTree.construct] at hsome
    | some labels =>
      have h2 := hwf.2
      rw [hlt] at h2
      exact ⟨labels, hlt, by rw [← hs1]; exact h2⟩
  · intro sentence1 labeled1 calls1 hyp hh hlen
    obtain ⟨hwfh, _⟩ := ParseTree.applyCalls_wellFormed calls1 _ hyp
      (ParseTree.wellFormed_construct sentence1 labeled1) hh
    refine ⟨fun i hi => ?_, fun fuel => ?_⟩
    · have hb : i < t.parents.length := by rw [hwf.1]; exact hi
      have hc : i < hyp.parents.length := by rw [hwfh.1, ← hlen]; exact hi
      exact ⟨⟨t.parents[i], by simp [ParseTree.GetParents, List.getElem?_eq_getElem hb]⟩,
        ⟨hyp.parents[i], by simp [ParseTree.GetParents, List.getElem?_eq_getElem hc]⟩⟩
    · rw [ComputeCorrect, if_pos hlen]
      exact ComputeCorrect.loop_ne_outOfBounds t hyp hwf.1 (hwfh.1.trans hlen.symm) fuel 0 0

/-- Witness for C12: three in-range calls on a labeled tree over four tokens. -/
theorem ParseTree_size_invariant_witness :
    ∃ t, (ParseTree.construct [0, 1, 2, 3] true).applyCalls
        [⟨1, 2, "nsubj"⟩, ⟨3, 2, "dobj"⟩, ⟨1, 0, "dep"⟩] = some t ∧
      t.GetParents.length = 4 ∧
      ∃ labels, t.GetArcLabels = some labels ∧ labels.length = 4 :=
  match ParseTree_size_invariant [0, 1, 2, 3] true
    [⟨1, 2, "nsubj"⟩, ⟨3, 2, "dobj"⟩, ⟨1, 0, "dep"⟩] (by decide) with
  | ⟨t, h, _, hp, hl, _⟩ => ⟨t, h, hp, hl rfl⟩

/-- C13: `SetParent` stores its `unsigned` 32-bit `parent_index` into a signed 32-bit slot:
for `parent_index < 2^31` the value read back from `GetParents()[index]` is `parent_index`,
for `parent_index >= 2^31` it is `parent_index - 2^32`; in particular
`SetParent(i, 4294967295)` leaves `GetParents()[i]` equal to `-1`, the value a fresh tree
holds there. -/
theorem SetParent_stores_signed_32bit (t : ParseTree) (i p : Nat) (l : String)
    (hwf : t.WellFormed) (hi : i < t.sentence.length) (hp : p < 2 ^ 32) :
    (∃ t1, t.SetParent i p l = some t1 ∧
        (p < 2 ^ 31 → t1.GetParents[i]? = some (p : Int)) ∧
        (2 ^ 31 ≤ p → t1.GetParents[i]? = some ((p : Int) - 2 ^ 32))) ∧
      (∃ t2, t.SetParent i 4294967295 l = some t2 ∧
        t2.GetParents[i]? = some (-1) ∧
        t2.GetParents[i]? = (ParseTree.construct t.sentence true).GetParents[i]?) := by
  have hip : i < t.parents.length := by rw [hwf.1]; exact hi
  refine ⟨⟨_, ParseTree.SetParent_of_wellFormed t i p l hwf hi, ?_, ?_⟩,
    ⟨_, ParseTree.SetParent_of_wellFormed t i 4294967295 l hwf hi, ?_, ?_⟩⟩
  · intro h
    simp [ParseTree.GetParents, hip, unsignedToInt_of_lt p h]
  · intro h
    simp [ParseTree.GetParents, hip, unsignedToInt_of_ge p h hp]
  · have e : unsignedToInt 4294967295 = -1 := by decide
    simp [ParseTree.GetParents, hip, e]
  · have e : unsignedToInt 4294967295 = -1 := by decide
    simp [ParseTree.GetParents, hip, e, ParseTree.construct, List.getElem?_replicate, hi]

/-- Witness for C13: parent index `2^31` written at index 1 of a tree over three tokens reads
back as `-2^31`. -/
theorem SetParent_stores_signed_32bit_witness :
    ∃ t1, (ParseTree.construct [0, 1, 2] true).SetParent 1 2147483648 "x" = some t1 ∧
      t1.GetParents[1]? = some (-2147483648) :=
  match (SetParent_stores_signed_32bit (ParseTree.construct [0, 1, 2] true) 1 2147483648 "x"
    (by decide) (by decide) (by decide)).1 with
  | ⟨t1, h, _, hge⟩ => ⟨t1, h, (hge (by decide)).trans (by decide)⟩

theorem matchingParents_le (ref hyp : ParseTree) :
    matchingParents ref hyp ≤ ref.sentence.length := by
  unfold matchingParents
  exact (List.length_filter_le _ _).trans (by simp)

theorem matchingParents_eq_length_iff (ref hyp : ParseTree)
    (hr : ref.parents.length = ref.sentence.length)
    (hh : hyp.parents.length = ref.sentence.length) :
    matchingParents ref hyp = ref.sentence.length ↔ ref.GetParents = hyp.GetParents := by
  unfold matchingParents
  constructor
  · intro h
    have hall := List.filter_length_eq_length.mp (h.trans (List.length_range _).symm)
    apply List.ext_getElem?
    intro n
    by_cases hn : n < ref.sentence.length
    · simpa using hall n (List.mem_range.mpr hn)
    · have h1 : ref.GetParents[n]? = none := by
        simp only [ParseTree.GetParents]
        exact List.getElem?_eq_none (by omega)
      have h2 : hyp.GetParents[n]? = none := by
        simp only [ParseTree.GetParents]
        exact List.getElem?_eq_none (by omega)
      rw [h1, h2]
  · intro h
    rw [h]
    simp

/-- C14: for trees `ref` and `hyp` over sentences of equal length `N`,
`ComputeCorrect(ref, hyp) <= N`, with equality if and only if `ref.GetParents()` and
`hyp.GetParents()` are equal element for element; two freshly constructed trees score `N`. -/
theorem ComputeCorrect_le_length (ref hyp : ParseTree) (fuel : Nat)
    (hr : ref.WellFormed) (hh : hyp.WellFormed)
    (hlen : ref.sentence.length = hyp.sentence.length)
    (hN : ref.sentence.length < UNSIGNED_RANGE) (hfuel : ref.sentence.length < fuel) :
    (∃ c, ComputeCorrect fuel ref hyp = Outcome.ok c ∧ c ≤ ref.sentence.length ∧
        (c = ref.sentence.length ↔ ref.GetParents = hyp.GetParents)) ∧
      (∀ labeled1 labeled2 : Bool,
        ComputeCorrect fuel (ParseTree.construct ref.sentence labeled1)
          (ParseTree.construct hyp.sentence labeled2) = Outcome.ok ref.sentence.length) := by
  refine ⟨⟨_, ComputeCorrect_eq_matchingParents ref hyp fuel hr hh hlen hN hfuel,
    matchingParents_le ref hyp,
    matchingParents_eq_length_iff ref hyp hr.1 (hh.1.trans hlen.symm)⟩, ?_⟩
  intro labeled1 labeled2
  have hw1 := ParseTree.wellFormed_construct ref.sentence labeled1
  have hw2 := ParseTree.wellFormed_construct hyp.sentence labeled2
  have hl : (ParseTree.construct ref.sentence labeled1).sentence.length =
      (ParseTree.construct hyp.sentence labeled2).sentence.length := hlen
  rw [ComputeCorrect_eq_matchingParents _ _ fuel hw1 hw2 hl hN hfuel]
  have hq := (matchingParents_eq_length_iff (ParseTree.construct ref.sentence labeled1)
    (ParseTree.construct hyp.sentence labeled2) hw1.1 (hw2.1.trans hl.symm)).mpr (by
      simp [ParseTree.GetParents, ParseTree.construct, hlen])
  rw [hq]
  rfl

/-- Witness for C14: trees over three tokens agreeing on two parents score 2, below 3. -/
theorem ComputeCorrect_le_length_witness :
    ∃ c, ComputeCorrect 4 ⟨[5, 6, 7], [-1, 2, 0], some ["ERROR", "a", "b"]⟩
        ⟨[5, 6, 7], [-1, 2, 1], none⟩ = Outcome.ok c ∧ c ≤ 3 :=
  match (ComputeCorrect_le_length ⟨[5, 6, 7], [-1, 2, 0], some ["ERROR", "a", "b"]⟩
    ⟨[5, 6, 7], [-1, 2, 1], none⟩ 4 (by decide) (by decide) (by decide) (by decide)
    (by decide)).1 with
  | ⟨c, h, hle, _⟩ => ⟨c, h, hle⟩

theorem ComputeCorrect.loop_symm (a b : ParseTree)
    (hlen : a.sentence.length = b.sentence.length) :
    ∀ (fuel i c : Nat),
      ComputeCorrect.loop a b fuel i c = ComputeCorrect.loop b a fuel i c := by
  intro fuel
  induction fuel with
  | zero => intro i c; simp [ComputeCorrect.loop]
  | succ f ih =>
    intro i c
    rw [ComputeCorrect.loop, ComputeCorrect.loop, hlen]
    by_cases hi : i < b.sentence.length
    · simp only [if_pos hi]
      cases a.GetParents[i]? with
      | none => cases b.GetParents[i]? <;> rfl
      | some x =>
        cases b.GetParents[i]? with
        | none => rfl
        | some y =>
          simp only []
          rw [ih]
          by_cases hxy : x = y
          · rw [if_pos hxy, if_pos hxy.symm]
          · rw [if_neg hxy, if_neg (fun h => hxy h.symm)]
    · simp only [if_neg hi]

theorem ComputeCorrect_symm_any (a b : ParseTree) (fuel : Nat) :
    ComputeCorrect fuel a b = ComputeCorrect fuel b a := by
  by_cases hlen : a.sentence.length = b.sentence.length
  · rw [ComputeCorrect, ComputeCorrect, if_pos hlen, if_pos hlen.symm,
      ComputeCorrect.loop_symm a b hlen]
  · rw [ComputeCorrect, ComputeCorrect, if_neg hlen, if_neg (fun h => hlen h.symm)]

/-- C15: `ComputeCorrect` is symmetric in its arguments: for trees `a` and `b` over sentences
of equal length, `ComputeCorrect(a, b) == ComputeCorrect(b, a)`, both calls returning the same
count. -/
theorem ComputeCorrect_symmetric (a b : ParseTree) (fuel : Nat)
    (ha : a.WellFormed) (hb : b.WellFormed)
    (hlen : a.sentence.length = b.sentence.length)
    (hN : a.sentence.length < UNSIGNED_RANGE) (hfuel : a.sentence.length < fuel) :
    ComputeCorrect fuel a b = ComputeCorrect fuel b a ∧
      ∃ c, ComputeCorrect fuel a b = Outcome.ok c ∧ ComputeCorrect fuel b a = Outcome.ok c := by
  have h := ComputeCorrect_eq_matchingParents a b fuel ha hb hlen hN hfuel
  have hs := ComputeCorrect_symm_any a b fuel
  exact ⟨hs, _, h, hs ▸ h⟩

/-- Witness for C15: two trees over three tokens, two agreeing parents in either order. -/
theorem ComputeCorrect_symmetric_witness :
    ComputeCorrect 4 ⟨[5, 6, 7], [-1, 2, 0], some ["ERROR", "a", "b"]⟩
        ⟨[5, 6, 7], [-1, 2, 1], none⟩
      = ComputeCorrect 4 ⟨[5, 6, 7], [-1, 2, 1], none⟩
        ⟨[5, 6, 7], [-1, 2, 0], some ["ERROR", "a", "b"]⟩ ∧
    ComputeCorrect 4 ⟨[5, 6, 7], [-1, 2, 1], none⟩
        ⟨[5, 6, 7], [-1, 2, 0], some ["ERROR", "a", "b"]⟩ = Outcome.ok 2 :=
  ⟨(ComputeCorrect_symmetric ⟨[5, 6, 7], [-1, 2, 0], some ["ERROR", "a", "b"]⟩
      ⟨[5, 6, 7], [-1, 2, 1], none⟩ 4 (by decide) (by decide) (by decide) (by decide)
      (by decide)).1,
    by decide⟩

/-- C16: on a labeled tree, `SetParent(i, p)` with the `arc_label` argument omitted replaces
the label at `i` with the empty string, not `"ERROR"` and not the previous label; on an
unlabeled tree `SetParent` changes only the parents sequence and its `arc_label` argument is
ignored. -/
theorem SetParent_omitted_label (t : ParseTree) (i p : Nat)
    (hwf : t.WellFormed) (hi : i < t.sentence.length) :
    (∀ labels, t.GetArcLabels = some labels →
        ∃ t1 labels1, t.SetParent_omitted i p = some t1 ∧
          t1.GetArcLabels = some labels1 ∧ labels1[i]? = some "" ∧
          labels1[i]? ≠ some "ERROR" ∧
          (labels[i]? ≠ some "" → labels1[i]? ≠ labels[i]?)) ∧
      (t.GetArcLabels = none →
        ∀ l : String, ∃ t1, t.SetParent i p l = some t1 ∧
          t1.GetArcLabels = none ∧ t1.sentence = t.sentence ∧
          t1.GetParents = t.GetParents.set i (unsignedToInt p) ∧
          ∀ l1 : String, t.SetParent i p l1 = some t1) := by
  constructor
  · intro labels hl
    have hl1 : t.arc_labels = some labels := hl
    have hil : i < labels.length := by
      have := hwf.2
      rw [hl1] at this
      simp only at this
      omega
    have h1 := ParseTree.SetParent_of_wellFormed t i p "" hwf hi
    have e : (labels.set i "")[i]? = some "" := by simp [hil]
    refine ⟨_, labels.set i "", h1, by simp [ParseTree.GetArcLabels, hl1], e, ?_, ?_⟩
    · rw [e]; decide
    · intro hne
      rw [e]
      exact fun h => hne h.symm
  · intro hl l
    have hl1 : t.arc_labels = none := hl
    have h1 := ParseTree.SetParent_of_wellFormed t i p l hwf hi
    refine ⟨_, h1, by simp [ParseTree.GetArcLabels, hl1], rfl, rfl, ?_⟩
    intro l1
    rw [ParseTree.SetParent_of_wellFormed t i p l1 hwf hi]
    simp [hl1]

/-- Witness for C16: the label `nsubj` at index 1 of a labeled tree becomes the empty string. -/
theorem SetParent_omitted_label_witness :
    ∃ t1 labels1,
      (⟨[0, 1, 2], [-1, 2, -1], some ["ERROR", "nsubj", "ERROR"]⟩ : ParseTree).SetParent_omitted
        1 0 = some t1 ∧
      t1.GetArcLabels = some labels1 ∧ labels1[1]? = some "" :=
  match (SetParent_omitted_label ⟨[0, 1, 2], [-1, 2, -1], some ["ERROR", "nsubj", "ERROR"]⟩ 1 0
    (by decide) (by decide)).1 ["ERROR", "nsubj", "ERROR"] rfl with
  | ⟨t1, labels1, h, hl, he, _⟩ => ⟨t1, labels1, h, hl, he⟩

end LstmParser
